import Mathlib

/-!
Verification of the ENA/MGnify → Darwin Core (DwC) mapping pipeline.

The Python sources (`mappings.py`, `example_1.py`, `utils.py`) are shallowly
embedded below.  Python strings are modelled as `List Char` (a sequence of
code points); pandas data frames are modelled as lists of rows, a row being a
total function from column name to `Val` (with `Val.na` as the missing
marker); fallible operations return `Option`/`Except`.
-/

namespace DwcPoc

/-! ### Python string primitives -/

/-- Code-point list of a string literal (the model of a Python `str`). -/
def sc (s : String) : List Char := s.data

/-- Python `s.split(sep)` for a one-character separator: splits at every
occurrence and keeps empty fragments, so the result is never empty
(`"".split(sep) == [""]`). -/
def pySplit (sep : Char) : List Char → List (List Char)
  | [] => [[]]
  | c :: rest =>
    if c = sep then [] :: pySplit sep rest
    else
      match pySplit sep rest with
      | [] => [[c]]
      | t :: ts => (c :: t) :: ts

/-- Python `s.split(pat, 1)` together with the `pat in s` test: `none` when
`pat` does not occur in `s`, otherwise the pieces before and after the first
occurrence of `pat`. -/
def splitOnce (pat : List Char) : List Char → Option (List Char × List Char)
  | [] => if pat = [] then some ([], []) else none
  | c :: rest =>
    if pat.isPrefixOf (c :: rest) then some ([], (c :: rest).drop pat.length)
    else (splitOnce pat rest).map (fun p => (c :: p.1, p.2))

/-- Python `s.strip()`: drop whitespace from both ends. -/
def pyStrip (s : List Char) : List Char :=
  ((s.dropWhile Char.isWhitespace).reverse.dropWhile Char.isWhitespace).reverse

/-- Python `s.lower()` (ASCII case folding, which covers every string this
pipeline handles). -/
def pyLower (s : List Char) : List Char := s.map Char.toLower

/-- Python truthiness of an optional string (`None` and `""` are falsy). -/
def truthy : Option (List Char) → Bool
  | none => false
  | some v => !v.isEmpty

/-! ### `Mappings.parse_tax_string` (src/mappings.py) -/

/-- The dictionary returned by `parse_tax_string`: the seven rank fields,
`specificEpithet`, and the inferred `taxonRank` (Python `None` ↦ `none`).
The Python key `"class"` is a Lean keyword and is rendered `class_`. -/
structure TaxDwc where
  taxonRank : Option (List Char)
  domain : Option (List Char)
  kingdom : Option (List Char)
  phylum : Option (List Char)
  order : Option (List Char)
  class_ : Option (List Char)
  family : Option (List Char)
  genus : Option (List Char)
  specificEpithet : Option (List Char)
deriving DecidableEq

/-- The freshly initialised dictionary (every entry `None`). -/
def emptyTax : TaxDwc :=
  ⟨none, none, none, none, none, none, none, none, none⟩

/-- The assignment `dwc[prefix_map[prefix]] = value`; an unrecognised prefix
leaves the dictionary unchanged (the `prefix not in prefix_map` guard). -/
def assignField (d : TaxDwc) (pre v : List Char) : TaxDwc :=
  if pre = sc "sk" then { d with domain := some v }
  else if pre = sc "k" then { d with kingdom := some v }
  else if pre = sc "p" then { d with phylum := some v }
  else if pre = sc "c" then { d with class_ := some v }
  else if pre = sc "o" then { d with order := some v }
  else if pre = sc "f" then { d with family := some v }
  else if pre = sc "g" then { d with genus := some v }
  else if pre = sc "s" then { d with specificEpithet := some v }
  else d

/-- One iteration of the `for part in tax_string.split(";")` loop. -/
def applyPart (d : TaxDwc) (part : List Char) : TaxDwc :=
  match splitOnce (sc "__") part with
  | none => d
  | some (pre, rawValue) =>
    let value := pyStrip rawValue
    if value = [] then d else assignField d pre value

/-- The field-population phase of `parse_tax_string` on a string input. -/
def parseFields (s : List Char) : TaxDwc :=
  (pySplit ';' s).foldl applyPart emptyTax

/-- The rank-inference `if/elif` cascade at the end of `parse_tax_string`. -/
def inferRank (d : TaxDwc) : TaxDwc :=
  if truthy d.genus then { d with taxonRank := some (sc "genus") }
  else if truthy d.family then { d with taxonRank := some (sc "family") }
  else if truthy d.order then { d with taxonRank := some (sc "order") }
  else if truthy d.class_ then { d with taxonRank := some (sc "class") }
  else if truthy d.phylum then { d with taxonRank := some (sc "phylum") }
  else if truthy d.kingdom then { d with taxonRank := some (sc "kingdom") }
  else if truthy d.domain then { d with taxonRank := some (sc "domain") }
  else d

/-- `Mappings.parse_tax_string`.  The argument is `some s` for a string input
and `none` for any non-string input (`None`, absent, numeric NaN, …), which
the source rejects with `if not isinstance(tax_string, str): return dwc`. -/
def parse_tax_string : Option (List Char) → TaxDwc
  | none => emptyTax
  | some s => inferRank (parseFields s)

/-- The rank fields in the order the `if/elif` cascade inspects them,
deepest first, paired with the rank name each one would produce. -/
def rankCandidates (d : TaxDwc) : List (List Char × Option (List Char)) :=
  [(sc "genus", d.genus), (sc "family", d.family), (sc "order", d.order),
   (sc "class", d.class_), (sc "phylum", d.phylum), (sc "kingdom", d.kingdom),
   (sc "domain", d.domain)]



/-- Each loop iteration of `parse_tax_string` leaves `taxonRank` untouched. -/
lemma applyPart_taxonRank (d : TaxDwc) (part : List Char) :
    (applyPart d part).taxonRank = d.taxonRank := by
  unfold applyPart
  split
  · rfl
  · dsimp only
    split
    · rfl
    · unfold assignField
      repeat' split
      all_goals rfl

lemma foldl_applyPart_taxonRank (l : List (List Char)) (d : TaxDwc) :
    (l.foldl applyPart d).taxonRank = d.taxonRank := by
  induction l generalizing d with
  | nil => rfl
  | cons p t ih => rw [List.foldl_cons, ih, applyPart_taxonRank]

/-- The field-population loop never sets `taxonRank`; only the final
`if/elif` cascade does. -/
lemma parseFields_taxonRank (s : List Char) : (parseFields s).taxonRank = none :=
  foldl_applyPart_taxonRank _ _

/-- C1: for every lineage string, `parse_tax_string` sets `taxonRank` by
checking genus, family, order, class, phylum, kingdom, domain in that order
and taking the first field holding a non-empty value; in particular a
populated genus forces `taxonRank = "genus"` regardless of shallower fields,
and when none of the seven rank fields is populated (e.g. when only
`specificEpithet` is) `taxonRank` stays unset. -/
theorem parse_tax_string_rank_inference (s : List Char) :
    (parse_tax_string (some s)).taxonRank
        = ((rankCandidates (parseFields s)).find? (fun p => truthy p.2)).map Prod.fst
    ∧ (truthy (parseFields s).genus = true →
        (parse_tax_string (some s)).taxonRank = some (sc "genus"))
    ∧ ((∀ p ∈ rankCandidates (parseFields s), truthy p.2 = false) →
        (parse_tax_string (some s)).taxonRank = none) := by
  have hbase := parseFields_taxonRank s
  refine ⟨?_, ?_, ?_⟩
  · show (inferRank (parseFields s)).taxonRank = _
    generalize parseFields s = d at hbase ⊢
    unfold inferRank rankCandidates
    by_cases hg : truthy d.genus
    · simp [List.find?, hg]
    by_cases hf : truthy d.family
    · simp [List.find?, hg, hf]
    by_cases ho : truthy d.order
    · simp [List.find?, hg, hf, ho]
    by_cases hc : truthy d.class_
    · simp [List.find?, hg, hf, ho, hc]
    by_cases hp : truthy d.phylum
    · simp [List.find?, hg, hf, ho, hc, hp]
    by_cases hk : truthy d.kingdom
    · simp [List.find?, hg, hf, ho, hc, hp, hk]
    by_cases hd : truthy d.domain
    · simp [List.find?, hg, hf, ho, hc, hp, hk, hd]
    · simp [List.find?, hg, hf, ho, hc, hp, hk, hd, hbase]
  · intro hg
    show (inferRank (parseFields s)).taxonRank = _
    unfold inferRank
    simp [hg]
  · intro hall
    have hg := hall (sc "genus", (parseFields s).genus) (by simp [rankCandidates])
    have hf := hall (sc "family", (parseFields s).family) (by simp [rankCandidates])
    have ho := hall (sc "order", (parseFields s).order) (by simp [rankCandidates])
    have hc := hall (sc "class", (parseFields s).class_) (by simp [rankCandidates])
    have hp := hall (sc "phylum", (parseFields s).phylum) (by simp [rankCandidates])
    have hk := hall (sc "kingdom", (parseFields s).kingdom) (by simp [rankCandidates])
    have hd := hall (sc "domain", (parseFields s).domain) (by simp [rankCandidates])
    show (inferRank (parseFields s)).taxonRank = none
    unfold inferRank
    simp only at hg hf ho hc hp hk hd
    simp [hg, hf, ho, hc, hp, hk, hd, hbase]

/-- Witness for C1: a lineage with kingdom and genus populated gets rank
`"genus"`; a lineage populating only `specificEpithet` gets no rank. -/
theorem parse_tax_string_rank_inference_witness :
    (parse_tax_string (some (sc "k__Bacteria;g__Clostridium"))).taxonRank = some (sc "genus")
    ∧ (parse_tax_string (some (sc "k__;s__onlyspecies"))).taxonRank = none :=
  ⟨(parse_tax_string_rank_inference (sc "k__Bacteria;g__Clostridium")).2.1 (by decide),
   (parse_tax_string_rank_inference (sc "k__;s__onlyspecies")).2.2 (by decide)⟩

/-- C2: on any non-string input (modelled by `none`), `parse_tax_string`
returns with all seven rank fields, `specificEpithet`, and `taxonRank` unset;
being a total Lean function, the embedded code cannot raise. -/
theorem parse_tax_string_nonstring_total :
    (parse_tax_string none).taxonRank = none
    ∧ (parse_tax_string none).domain = none
    ∧ (parse_tax_string none).kingdom = none
    ∧ (parse_tax_string none).phylum = none
    ∧ (parse_tax_string none).order = none
    ∧ (parse_tax_string none).class_ = none
    ∧ (parse_tax_string none).family = none
    ∧ (parse_tax_string none).genus = none
    ∧ (parse_tax_string none).specificEpithet = none := by
  refine ⟨rfl, rfl, rfl, rfl, rfl, rfl, rfl, rfl, rfl⟩



/-! ### File selector (`filtered_tsv_files`, src/example_1.py) -/

/-- A Python one-character split never yields an empty list. -/
lemma pySplit_ne_nil (sep : Char) (s : List Char) : pySplit sep s ≠ [] := by
  cases s with
  | nil => simp [pySplit]
  | cons c rest =>
    unfold pySplit
    split
    · simp
    · split <;> simp

lemma pySplit_length_two_of_mem {sep : Char} {s : List Char} (h : sep ∈ s) :
    2 ≤ (pySplit sep s).length := by
  induction s with
  | nil => simp at h
  | cons c rest ih =>
    by_cases hc : c = sep
    · subst hc
      have := List.length_pos.mpr (pySplit_ne_nil c rest)
      simp [pySplit]
      omega
    · unfold pySplit
      have hmem : sep ∈ rest := by
        cases List.mem_cons.mp h with
        | inl he => exact absurd he.symm hc
        | inr hm => exact hm
      have h2 := ih hmem
      simp only [if_neg hc]
      split
      · rename_i heq
        exact absurd heq (pySplit_ne_nil sep rest)
      · rename_i t ts heq
        have : (pySplit sep rest).length = ts.length + 1 := by rw [heq]; rfl
        simp only [List.length_cons]
        omega

lemma char_toNat_ofNat {n : Nat} (h : n < 0xd800) : (Char.ofNat n).toNat = n := by
  rw [Char.ofNat, dif_pos (Or.inl h)]
  rfl

lemma toLower_eq_underscore {c : Char} (h : c.toLower = '_') : c = '_' := by
  rw [show Char.toLower c
        = if c.toNat ≥ 65 ∧ c.toNat ≤ 90 then Char.ofNat (c.toNat + 32) else c
      from rfl] at h
  split at h
  · exfalso
    rename_i hc
    have h1 := congrArg Char.toNat h
    rw [char_toNat_ofNat (by omega)] at h1
    have h2 : ('_' : Char).toNat = 95 := by decide
    omega
  · exact h

lemma underscore_mem_of_lower_suffix {s : List Char}
    (h : (sc "ssu_otu.tsv").isSuffixOf (pyLower s) = true) : '_' ∈ s := by
  have hsuf : sc "ssu_otu.tsv" <:+ pyLower s := by
    rwa [List.isSuffixOf_iff_suffix] at h
  have hmem : '_' ∈ pyLower s := hsuf.subset (by decide)
  rcases List.mem_map.mp hmem with ⟨c, hcs, hlow⟩
  rwa [toLower_eq_underscore hlow] at hcs


/-- The per-resource body of the `for tsv in tsv_files` selection loop: the
resource with URL basename `basename` is kept for the run-accession set
`runs` iff the result is `some true`.  `none` models the `IndexError` Python
would raise on `nameparts[1]`; the code never reaches it (see
`nameparts_second_token_total`). -/
def keepResource (runs : List (List Char)) (basename : List Char) : Option Bool :=
  if (sc "ssu_otu.tsv").isSuffixOf (pyLower basename) then
    match (pySplit '_' basename)[1]? with
    | none => none
    | some tok2 =>
      some (decide ((pySplit '_' basename).headD [] ∈ runs)
        && decide (pyLower tok2 = sc "merged"))
  else some false

/-- C10: when the lowercased basename ends with `"ssu_otu.tsv"`, splitting on
`"_"` yields at least two tokens, so the selector's `nameparts[1]` access is
total and never raises. -/
theorem nameparts_second_token_total (s : List Char)
    (h : (sc "ssu_otu.tsv").isSuffixOf (pyLower s) = true) :
    2 ≤ (pySplit '_' s).length
    ∧ ∀ runs : List (List Char), keepResource runs s ≠ none := by
  have h2 := pySplit_length_two_of_mem (underscore_mem_of_lower_suffix h)
  refine ⟨h2, fun runs => ?_⟩
  unfold keepResource
  have h1 : (pySplit '_' s)[1]? = some ((pySplit '_' s).getD 1 []) := by
    rw [List.getElem?_eq_getElem h2, List.getD_eq_getElem?_getD,
      List.getElem?_eq_getElem h2]
    rfl
  rw [if_pos h, h1]
  dsimp only
  exact Option.some_ne_none _

/-- Witness for C10 at a concrete basename. -/
theorem nameparts_second_token_total_witness :
    (sc "ssu_otu.tsv").isSuffixOf (pyLower (sc "ERR000001_merged_SSU_OTU.TSV")) = true
    ∧ 2 ≤ (pySplit '_' (sc "ERR000001_merged_SSU_OTU.TSV")).length :=
  ⟨by decide, (nameparts_second_token_total (sc "ERR000001_merged_SSU_OTU.TSV") (by decide)).1⟩

/-- C5 (amended): a resource is kept iff the lowercase basename ends with
`"ssu_otu.tsv"`, the lowercase second underscore-token is `"merged"`, and the
first token is (case-sensitively) in the valid run-accession set; case
variations in the portion after the run-id token are selected, while the
non-merged `ERR000001_SSU_OTU.TSV` is not. -/
theorem keepResource_iff :
    (∀ (runs : List (List Char)) (basename : List Char),
      keepResource runs basename = some true ↔
        ((sc "ssu_otu.tsv").isSuffixOf (pyLower basename) = true
          ∧ pyLower ((pySplit '_' basename).getD 1 []) = sc "merged"
          ∧ (pySplit '_' basename).headD [] ∈ runs))
    ∧ keepResource [sc "ERR000001"] (sc "ERR000001_merged_SSU_OTU.TSV") = some true
    ∧ keepResource [sc "ERR000001"] (sc "ERR000001_MERGED_ssu_otu.TSV") = some true
    ∧ keepResource [sc "ERR000001"] (sc "ERR000001_SSU_OTU.TSV") = some false := by
  refine ⟨?_, by decide, by decide, by decide⟩
  intro runs basename
  unfold keepResource
  by_cases hsfx : (sc "ssu_otu.tsv").isSuffixOf (pyLower basename) = true
  · have h2 := pySplit_length_two_of_mem (underscore_mem_of_lower_suffix hsfx)
    have h1 : (pySplit '_' basename)[1]? = some ((pySplit '_' basename).getD 1 []) := by
      rw [List.getElem?_eq_getElem h2, List.getD_eq_getElem?_getD,
        List.getElem?_eq_getElem h2]
      rfl
    rw [if_pos hsfx, h1]
    dsimp only
    simp only [Option.some.injEq, Bool.and_eq_true, decide_eq_true_iff]
    exact ⟨fun hab => ⟨hsfx, hab.2, hab.1⟩, fun hx => ⟨hx.2.2, hx.2.1⟩⟩
  · rw [if_neg hsfx]
    constructor
    · intro hcontra
      exact absurd hcontra (by simp)
    · rintro ⟨hc, -, -⟩
      exact absurd hc hsfx

/-- Counterexample to C5 as stated: lower-casing the run-id token of
`ERR000001_merged_SSU_OTU.TSV` gives a case variation of the same name that
the selector does not keep, because the first token is compared
case-sensitively against the run-accession set. -/
theorem keepResource_case_variation_not_selected :
    pyLower (sc "err000001_merged_SSU_OTU.TSV")
      = pyLower (sc "ERR000001_merged_SSU_OTU.TSV")
    ∧ keepResource [sc "ERR000001"] (sc "err000001_merged_SSU_OTU.TSV") = some false :=
  ⟨by decide, by decide⟩

/-- Witness for C5: the canonical merged basename is selected. -/
theorem keepResource_iff_witness :
    keepResource [sc "ERR000001"] (sc "ERR000001_merged_SSU_OTU.TSV") = some true :=
  (keepResource_iff.1 [sc "ERR000001"] (sc "ERR000001_merged_SSU_OTU.TSV")).mpr
    (by refine ⟨by decide, by decide, by decide⟩)

/-! ### Feature-name derivation (`annotation_name`, src/example_1.py) -/

/-- The `annotation_name` column derivation: split the lineage on `";"`, take
the last segment's tail after its first three characters when the split is
non-empty (it always is), and replace underscores with spaces. -/
def annotation_name (taxonomy : List Char) : List Char :=
  (if 0 < (pySplit ';' taxonomy).length
    then ((pySplit ';' taxonomy).getLastD []).drop 3
    else []).map (fun c => if c = '_' then ' ' else c)

/-- The same derivation as the spec words it: the last `";"`-delimited
segment with its first three characters stripped if that segment is
non-empty, the empty string otherwise, underscores replaced by spaces. -/
def annotation_name_spec (taxonomy : List Char) : List Char :=
  (if (pySplit ';' taxonomy).getLastD [] = []
    then []
    else ((pySplit ';' taxonomy).getLastD []).drop 3).map
    (fun c => if c = '_' then ' ' else c)

/-- C8: for every lineage string the code's feature-name derivation agrees
with the spec's description of it. -/
theorem annotation_name_eq_spec (t : List Char) :
    annotation_name t = annotation_name_spec t := by
  unfold annotation_name annotation_name_spec
  have hpos : 0 < (pySplit ';' t).length :=
    List.length_pos.mpr (pySplit_ne_nil ';' t)
  rw [if_pos hpos]
  by_cases hl : (pySplit ';' t).getLastD [] = []
  · rw [hl, if_pos rfl]
    rfl
  · rw [if_neg hl]




/-! ### `Mappings.add_occurrence` (src/mappings.py) -/

/-- Python `"|".join(...)`. -/
def pipeJoin : List (List Char) → List Char
  | [] => []
  | [x] => x
  | x :: y :: ys => x ++ '|' :: pipeJoin (y :: ys)

/-- The `occurrenceID` built by `add_occurrence`: the pipe-join of the six
identifier fields `collectionID`, `datasetID`, `associatedSequences`,
`materialSampleID`, `measurementID`, `scientificNameID` (in that order) with
missing (`NaN`) values dropped by `row.dropna()`, not replaced. -/
def occurrenceID (fields : List (Option (List Char))) : List Char :=
  pipeJoin (fields.filterMap id)

/-- The part of a pipe-join contributed by the fields after the first:
each one preceded by the separator. -/
def joinTail (L : List (List Char)) : List Char :=
  (L.map (fun x => '|' :: x)).flatten

lemma joinTail_cons (x : List Char) (S : List (List Char)) :
    joinTail (x :: S) = '|' :: (x ++ joinTail S) := by
  simp [joinTail]

lemma joinTail_append (P Q : List (List Char)) :
    joinTail (P ++ Q) = joinTail P ++ joinTail Q := by
  simp [joinTail]

lemma pipeJoin_cons (x : List Char) (L : List (List Char)) :
    pipeJoin (x :: L) = x ++ joinTail L := by
  induction L generalizing x with
  | nil => simp [pipeJoin, joinTail]
  | cons y ys ih =>
    rw [show pipeJoin (x :: y :: ys) = x ++ '|' :: pipeJoin (y :: ys) from rfl,
      ih y, joinTail_cons]

/-- Changing one joined value between two distinct values changes the join. -/
lemma pipeJoin_mid_cancel {P S : List (List Char)} {x y : List Char}
    (h : pipeJoin (P ++ x :: S) = pipeJoin (P ++ y :: S)) : x = y := by
  cases P with
  | nil =>
    rw [List.nil_append, List.nil_append, pipeJoin_cons, pipeJoin_cons] at h
    exact List.append_cancel_right h
  | cons a P' =>
    rw [List.cons_append, List.cons_append, pipeJoin_cons, pipeJoin_cons,
      joinTail_append, joinTail_append, joinTail_cons, joinTail_cons] at h
    have h2 := List.append_cancel_left h
    have h3 := List.append_cancel_left h2
    injection h3 with _ h4
    exact List.append_cancel_right h4

/-- Length of a non-empty pipe-join: total value length plus one separator
between each adjacent pair. -/
lemma pipeJoin_length (L : List (List Char)) (h : L ≠ []) :
    (pipeJoin L).length = (L.map List.length).sum + L.length - 1 := by
  induction L with
  | nil => cases h rfl
  | cons x ys ih =>
    cases ys with
    | nil => simp [pipeJoin]
    | cons y ys' =>
      rw [show pipeJoin (x :: y :: ys') = x ++ '|' :: pipeJoin (y :: ys') from rfl]
      have ihh := ih (List.cons_ne_nil y ys')
      simp only [List.length_append, List.length_cons, List.map_cons,
        List.sum_cons] at ihh ⊢
      omega

/-- Dropping one present field changes the ID unless that field is the empty
string and every other field is missing. -/
lemma occurrenceID_drop_field (A B : List (Option (List Char))) (x : List Char)
    (hx : ¬(x = [] ∧ ∀ o ∈ A ++ B, o = none)) :
    occurrenceID (A ++ some x :: B) ≠ occurrenceID (A ++ none :: B) := by
  intro heq
  unfold occurrenceID at heq
  rw [List.filterMap_append, List.filterMap_append] at heq
  simp only [List.filterMap_cons, id_eq] at heq
  by_cases hPS : A.filterMap id ++ B.filterMap id = []
  · rcases List.append_eq_nil.mp hPS with ⟨hP, hS⟩
    rw [hP, hS] at heq
    simp only [List.nil_append, List.append_nil] at heq
    have hx0 : x = [] := by
      rw [show pipeJoin [x] = x from rfl, show pipeJoin ([] : List (List Char)) = [] from rfl] at heq
      exact heq
    apply hx
    refine ⟨hx0, fun o ho => ?_⟩
    rcases List.mem_append.mp ho with hmem | hmem
    · have := List.filterMap_eq_nil_iff.mp hP o hmem
      simpa using this
    · have := List.filterMap_eq_nil_iff.mp hS o hmem
      simpa using this
  · have hlen := congrArg List.length heq
    have hne1 : A.filterMap id ++ x :: B.filterMap id ≠ [] := by simp
    rw [pipeJoin_length _ hne1, pipeJoin_length _ hPS] at hlen
    have hpos : 0 < (A.filterMap id ++ B.filterMap id).length :=
      List.length_pos.mpr hPS
    simp only [List.map_append, List.map_cons, List.sum_append, List.sum_cons,
      List.length_append, List.length_cons] at hlen hpos
    omega

/-- C4 (amended): `occurrenceID` is the pipe-joined concatenation of the six
identifier fields with missing values dropped; it is deterministic; and it
changes whenever exactly one of the six fields changes, except when that
change toggles a field between the empty string and missing while all five
other fields are missing (both sides then yield the empty ID). -/
theorem occurrenceID_props :
    (∀ fields : List (Option (List Char)),
        occurrenceID fields = pipeJoin (fields.filterMap id))
    ∧ (∀ f g : List (Option (List Char)), f = g → occurrenceID f = occurrenceID g)
    ∧ (∀ (A B : List (Option (List Char))) (v₁ v₂ : Option (List Char)),
        A.length + B.length = 5 → v₁ ≠ v₂ →
        ¬(((v₁ = some [] ∧ v₂ = none) ∨ (v₁ = none ∧ v₂ = some []))
            ∧ ∀ o ∈ A ++ B, o = none) →
        occurrenceID (A ++ v₁ :: B) ≠ occurrenceID (A ++ v₂ :: B)) := by
  refine ⟨fun _ => rfl, fun f g h => by rw [h], ?_⟩
  intro A B v₁ v₂ _ hne hexc heq
  rcases v₁ with _ | x <;> rcases v₂ with _ | y
  · exact hne rfl
  · refine occurrenceID_drop_field A B y ?_ heq.symm
    rintro ⟨hy, hall⟩
    exact hexc ⟨Or.inr ⟨rfl, by rw [hy]⟩, hall⟩
  · refine occurrenceID_drop_field A B x ?_ heq
    rintro ⟨hxe, hall⟩
    exact hexc ⟨Or.inl ⟨by rw [hxe], rfl⟩, hall⟩
  · unfold occurrenceID at heq
    rw [List.filterMap_append, List.filterMap_append] at heq
    simp only [List.filterMap_cons, id_eq] at heq
    exact hne (by rw [pipeJoin_mid_cancel heq])

/-- Counterexample to C4 as stated: two field vectors that differ only in
their first field (empty string vs missing) produce the same `occurrenceID`,
so the ID does not change whenever any one constituent field changes. -/
theorem occurrenceID_counterexample :
    ([some [], none, none, none, none, none] : List (Option (List Char))).head?
        ≠ ([none, none, none, none, none, none] : List (Option (List Char))).head?
    ∧ ([some [], none, none, none, none, none] : List (Option (List Char))).tail
        = ([none, none, none, none, none, none] : List (Option (List Char))).tail
    ∧ occurrenceID [some [], none, none, none, none, none]
        = occurrenceID [none, none, none, none, none, none] := by
  decide

/-- Witness for C4: changing the first identifier between two distinct
present values changes the ID. -/
theorem occurrenceID_props_witness :
    occurrenceID [some (sc "PRJ1"), none, none, none, none, none]
      ≠ occurrenceID [some (sc "PRJ2"), none, none, none, none, none] :=
  occurrenceID_props.2.2 [] [none, none, none, none, none]
    (some (sc "PRJ1")) (some (sc "PRJ2")) (by decide) (by decide) (by decide)




/-! ### Relative-count computation (src/example_1.py, step 4) -/

/-- A pandas float value: finite (modelled exactly as a rational), NaN, or a
signed infinity. -/
inductive PFloat where
  | fin (q : ℚ)
  | nan
  | inf
  | ninf
deriving DecidableEq

/-- IEEE-style elementwise division as pandas performs it: division by zero
gives NaN for a zero numerator and a signed infinity otherwise. -/
def pdiv (a b : ℚ) : PFloat :=
  if b = 0 then (if a = 0 then .nan else if 0 < a then .inf else .ninf)
  else .fin (a / b)

/-- Multiplication of a pandas float by the positive constant 100. -/
def pmul100 : PFloat → PFloat
  | .fin q => .fin (q * 100)
  | .nan => .nan
  | .inf => .inf
  | .ninf => .ninf

/-- `df["count_relative"] = df["abs_count"] / df["abs_count"].sum() * 100`
for one run's table whose absolute counts are `counts` (non-negative
integers per the data model; the sum resets per run because the whole
expression is evaluated on the run's own DataFrame). -/
def count_relative (counts : List ℕ) : List PFloat :=
  counts.map (fun (a : ℕ) => pmul100 (pdiv (a : ℚ) ((counts.sum : ℕ) : ℚ)))

/-- Sum of the finite entries of a float column (what `.sum()` adds up when
every entry is finite). -/
def finTotal : List PFloat → ℚ
  | [] => 0
  | .fin q :: rest => q + finTotal rest
  | .nan :: rest => finTotal rest
  | .inf :: rest => finTotal rest
  | .ninf :: rest => finTotal rest

/-- C6: each row's relative count is its absolute count divided by the
per-run total times 100; the example [10,20,30,40] yields [10,20,30,40]
summing to 100; and a zero per-run total makes every relative count NaN
(missing), never zero. -/
theorem count_relative_spec (counts : List ℕ) (i : ℕ) (hi : i < counts.length) :
    (counts.sum ≠ 0 →
      (count_relative counts)[i]?
        = some (.fin ((counts[i] : ℚ) / ((counts.sum : ℕ) : ℚ) * 100)))
    ∧ (counts.sum = 0 → (count_relative counts)[i]? = some .nan)
    ∧ count_relative [10, 20, 30, 40] = [.fin 10, .fin 20, .fin 30, .fin 40]
    ∧ finTotal (count_relative [10, 20, 30, 40]) = 100 := by
  have hconcrete : count_relative [10, 20, 30, 40] = [.fin 10, .fin 20, .fin 30, .fin 40] := by
    norm_num [count_relative, pdiv, pmul100]
  refine ⟨?_, ?_, hconcrete, ?_⟩
  · intro hsum
    have hq : ((counts.sum : ℕ) : ℚ) ≠ 0 := Nat.cast_ne_zero.mpr hsum
    rw [count_relative, List.getElem?_map, List.getElem?_eq_getElem hi]
    simp only [pdiv, if_neg hq, pmul100]
    rfl
  · intro hsum
    have hz : counts[i] = 0 := by
      have hmem := List.getElem_mem (l := counts) (n := i) hi
      have hle := List.single_le_sum (l := counts) (fun x _ => Nat.zero_le x) _ hmem
      omega
    rw [count_relative, List.getElem?_map, List.getElem?_eq_getElem hi]
    simp only [hz, hsum, pdiv, pmul100]
    norm_num
  · rw [hconcrete]
    norm_num [finTotal]

/-- Witness for C6 at the spec's example table and at an all-zero table. -/
theorem count_relative_spec_witness :
    (count_relative [10, 20, 30, 40])[0]?
        = some (.fin ((([10, 20, 30, 40] : List ℕ)[0] : ℚ)
            / ((([10, 20, 30, 40] : List ℕ).sum : ℕ) : ℚ) * 100))
    ∧ (count_relative [0, 0])[0]? = some .nan
    ∧ count_relative [10, 20, 30, 40] = [.fin 10, .fin 20, .fin 30, .fin 40] :=
  ⟨(count_relative_spec [10, 20, 30, 40] 0 (by decide)).1 (by decide),
   (count_relative_spec [0, 0] 0 (by decide)).2.1 (by decide),
   ((count_relative_spec [10, 20, 30, 40] 0 (by decide)).2.2).1⟩




/-! ### DataFrame model for the DwC mapping stages (src/mappings.py) -/

/-- A cell value: a string, an exactly-represented numeric, or the missing
marker (pandas `None`/`NaN`). -/
inductive Val where
  | str (s : List Char)
  | num (q : ℚ)
  | na
deriving DecidableEq

/-- A row: a total map from column name to value (`Val.na` when the cell is
missing). -/
def Row : Type := String → Val

/-- `df[c] = <constant>`, on one row. -/
def setConst (r : Row) (c : String) (v : Val) : Row :=
  fun x => if x = c then v else r x

/-- `df[dst] = df[src]`, on one row. -/
def setFrom (r : Row) (dst src : String) : Row :=
  fun x => if x = dst then r src else r x

/-- The "absolute" variant row: `measurementValue = count_absolute`,
`measurementUnit = "#"`, `measurementType = "absolute count"`. -/
def absRow (r : Row) : Row :=
  setConst (setConst (setFrom r "measurementValue" "count_absolute")
    "measurementUnit" (.str (sc "#"))) "measurementType" (.str (sc "absolute count"))

/-- The "relative" variant row: `measurementValue = count_relative`,
`measurementUnit = "%"`, `measurementType = "relative count"`. -/
def relRow (r : Row) : Row :=
  setConst (setConst (setFrom r "measurementValue" "count_relative")
    "measurementUnit" (.str (sc "%"))) "measurementType" (.str (sc "relative count"))

/-- `Mappings.split_relative_absolute_counts`: the returned dict's
`"absolute"` and `"relative"` DataFrames.  (`relative_df = df.copy()` is
taken before the absolute columns are assigned, so both variants derive from
the same input rows.) -/
def split_relative_absolute_counts (df : List Row) : List Row × List Row :=
  (df.map absRow, df.map relRow)

/-- C3: the measurement split turns N input rows into exactly 2N output rows
across the "absolute" and "relative" variants; the absolute row of each pair
carries `count_absolute` / `"#"` / `"absolute count"`, the relative row
carries `count_relative` / `"%"` / `"relative count"`, and the pair agrees on
every other column. -/
theorem split_counts_spec (df : List Row) (i : ℕ) (r₀ : Row)
    (h : df[i]? = some r₀) (c : String)
    (hc : c ∉ (["measurementValue", "measurementUnit", "measurementType"] : List String)) :
    (split_relative_absolute_counts df).1.length
        + (split_relative_absolute_counts df).2.length = 2 * df.length
    ∧ ((split_relative_absolute_counts df).1[i]?).map (fun r => r "measurementValue")
        = some (r₀ "count_absolute")
    ∧ ((split_relative_absolute_counts df).1[i]?).map (fun r => r "measurementUnit")
        = some (.str (sc "#"))
    ∧ ((split_relative_absolute_counts df).1[i]?).map (fun r => r "measurementType")
        = some (.str (sc "absolute count"))
    ∧ ((split_relative_absolute_counts df).2[i]?).map (fun r => r "measurementValue")
        = some (r₀ "count_relative")
    ∧ ((split_relative_absolute_counts df).2[i]?).map (fun r => r "measurementUnit")
        = some (.str (sc "%"))
    ∧ ((split_relative_absolute_counts df).2[i]?).map (fun r => r "measurementType")
        = some (.str (sc "relative count"))
    ∧ ((split_relative_absolute_counts df).1[i]?).map (fun r => r c)
        = ((split_relative_absolute_counts df).2[i]?).map (fun r => r c) := by
  simp only [List.mem_cons, List.not_mem_nil, or_false, not_or] at hc
  obtain ⟨hc1, hc2, hc3⟩ := hc
  unfold split_relative_absolute_counts
  simp only [List.length_map, List.getElem?_map, h, Option.map_some]
  refine ⟨by omega, ?_, ?_, ?_, ?_, ?_, ?_, ?_⟩ <;>
    simp [absRow, relRow, setConst, setFrom, hc1, hc2, hc3]

/-- A one-row input table for concrete witnesses. -/
def sampleRow : Row := fun c =>
  if c = "count_absolute" then Val.num 7
  else if c = "count_relative" then Val.num 70
  else Val.str (sc "z")

/-- Witness for C3 on a concrete one-row table. -/
theorem split_counts_spec_witness :
    ((split_relative_absolute_counts [sampleRow]).1[0]?).map (fun r => r "measurementUnit")
        = some (.str (sc "#"))
    ∧ ((split_relative_absolute_counts [sampleRow]).1[0]?).map (fun r => r "eventDate")
        = ((split_relative_absolute_counts [sampleRow]).2[0]?).map (fun r => r "eventDate") :=
  ⟨(split_counts_spec [sampleRow] 0 sampleRow rfl "eventDate" (by decide)).2.2.1,
   (split_counts_spec [sampleRow] 0 sampleRow rfl "eventDate" (by decide)).2.2.2.2.2.2.2⟩


/-! ### `Mappings.enforce_schema_order` (src/mappings.py) -/

/-- `Mappings.FINAL_DWC_SCHEMA`, in source order (31 column names). -/
def FINAL_DWC_SCHEMA : List String :=
  ["collectionID", "datasetID", "basisOfRecord", "associatedSequences",
   "materialSampleID", "eventDate", "year", "month", "day",
   "decimalLatitude", "decimalLongitude", "verbatimDepth", "measurementID",
   "measurementMethod", "measurementType", "measurementUnit",
   "measurementValue", "scientificNameID", "scientificName", "taxonRank",
   "higherClassification", "domain", "kingdom", "phylum", "order", "class",
   "family", "genus", "specificEpithet", "occurrenceStatus", "occurrenceID"]

/-- A DataFrame: its column list plus its rows.  (Reading a column not in
`cols` is meaningless in pandas; the claims below only inspect columns that
are present.) -/
structure DF where
  cols : List String
  rows : List Row

/-- `missing_cols = list(set(FINAL_DWC_SCHEMA) - set(df.columns))`.  Python's
set difference enumerates in unspecified order; the model fixes schema order,
on which no claim depends. -/
def missingCols (df : DF) : List String :=
  FINAL_DWC_SCHEMA.filter (fun c => decide (c ∉ df.cols))

/-- `Mappings.enforce_schema_order`: missing schema columns are created and
set to `None` (the returned first component is the warned missing-column
list), then the frame is projected to `FINAL_DWC_SCHEMA` order. -/
def enforce_schema_order (df : DF) : List String × DF :=
  (missingCols df,
   ⟨FINAL_DWC_SCHEMA,
    if (missingCols df).isEmpty then df.rows
    else df.rows.map (fun r => fun c => if c ∈ missingCols df then Val.na else r c)⟩)

/-- C7 (amended): the final projection returns exactly the schema columns in
the fixed order — all 31 of them (the source schema has 31 entries, not 30);
a schema column absent from the input is created, reported in the warning
list, and set to unset on every row, never silently omitted. -/
theorem enforce_schema_spec (df : DF) (c : String)
    (hc : c ∈ FINAL_DWC_SCHEMA) (habs : c ∉ df.cols) :
    FINAL_DWC_SCHEMA.length = 31
    ∧ (enforce_schema_order df).2.cols = FINAL_DWC_SCHEMA
    ∧ (enforce_schema_order df).2.rows.length = df.rows.length
    ∧ c ∈ (enforce_schema_order df).1
    ∧ ∀ r ∈ (enforce_schema_order df).2.rows, r c = Val.na := by
  have hmem : c ∈ missingCols df := by
    unfold missingCols
    rw [List.mem_filter]
    exact ⟨hc, by simpa using habs⟩
  have hne : (missingCols df).isEmpty = false := by
    rcases hmiss : missingCols df with _ | ⟨a, l⟩
    · rw [hmiss] at hmem
      simp at hmem
    · rfl
  refine ⟨rfl, rfl, ?_, hmem, ?_⟩
  · unfold enforce_schema_order
    rw [hne]
    simp
  · intro r hr
    unfold enforce_schema_order at hr
    rw [hne] at hr
    simp only [Bool.false_eq_true, if_false, List.mem_map] at hr
    obtain ⟨r₀, _, hr₀⟩ := hr
    rw [← hr₀]
    simp [hmem]

/-- Counterexample to C7 as stated: the projection of any frame (here the
empty one) has 31 columns, not 30. -/
theorem enforce_schema_spec_counterexample :
    (enforce_schema_order ⟨[], []⟩).2.cols.length = 31
    ∧ (enforce_schema_order ⟨[], []⟩).2.cols.length ≠ 30 := by
  constructor
  · rfl
  · decide

/-- Witness for C7: a frame holding only `count_absolute` gets
`occurrenceID` created, warned about, and set to `None` everywhere. -/
theorem enforce_schema_spec_witness :
    "occurrenceID" ∈ (enforce_schema_order ⟨["count_absolute"], [sampleRow]⟩).1
    ∧ ∀ r ∈ (enforce_schema_order ⟨["count_absolute"], [sampleRow]⟩).2.rows,
        r "occurrenceID" = Val.na :=
  ⟨(enforce_schema_spec ⟨["count_absolute"], [sampleRow]⟩ "occurrenceID"
      (by decide) (by decide)).2.2.2.1,
   (enforce_schema_spec ⟨["count_absolute"], [sampleRow]⟩ "occurrenceID"
      (by decide) (by decide)).2.2.2.2⟩




/-! ### `Utils.download_file` and the per-run batch loop (src/utils.py,
src/example_1.py) -/

/-- The errors `download_file` can raise: `FileNotFoundError` in cache-only
mode, or an HTTP/transport error from `requests`. -/
inductive DlError where
  | fileNotFound
  | httpError (msg : List Char)
deriving DecidableEq

/-- `Utils.download_file`.  `cacheDir` is `some cache` when a cache
directory was passed (`cache url` is the cached content keyed by the URL's
hash, `none` when the entry is absent) and `none` when `cache_dir` is empty;
`net` is the network fetch.  A cache hit is returned directly; otherwise in
cache-only mode `FileNotFoundError` is raised before any network access.
(The cache-write side effect on a successful fetch is not observable by any
claim and is not modelled.) -/
def download_file (cacheDir : Option (List Char → Option (List Char)))
    (net : List Char → Except (List Char) (List Char))
    (url : List Char) (only_use_cache : Bool) : Except DlError (List Char) :=
  match cacheDir with
  | some cache =>
    match cache url with
    | some content => .ok content
    | none =>
      if only_use_cache then .error .fileNotFound
      else
        match net url with
        | .ok t => .ok t
        | .error e => .error (.httpError e)
  | none =>
    if only_use_cache then .error .fileNotFound
    else
      match net url with
      | .ok t => .ok t
      | .error e => .error (.httpError e)

/-- The `try/except` download step of the per-run loop: `none` when the
download raised (`FileNotFoundError` is silently skipped, other errors are
printed and skipped — both `continue`), `some` of the processed result
otherwise. -/
def processRun {α : Type} (dl : List Char → Except DlError (List Char))
    (process : List Char → α) (url : List Char) : Option α :=
  match dl url with
  | .error _ => none
  | .ok content => some (process content)

/-- The batch loop over the runs' TSV URLs: failed runs are skipped, the
remaining ones processed in order. -/
def processBatch {α : Type} (dl : List Char → Except DlError (List Char))
    (process : List Char → α) (urls : List (List Char)) : List α :=
  urls.filterMap (processRun dl process)

/-- C9: in cache-only mode a URL with no cache entry makes `download_file`
raise `FileNotFoundError` (never touching the network), and the batch loop
catches it and skips exactly that run, processing all the others. -/
theorem download_cache_only_spec {α : Type}
    (cache : List Char → Option (List Char))
    (net : List Char → Except (List Char) (List Char)) (url : List Char)
    (hmiss : cache url = none)
    (process : List Char → α) (urls₁ urls₂ : List (List Char)) :
    download_file (some cache) net url true = .error .fileNotFound
    ∧ processBatch (fun u => download_file (some cache) net u true) process
          (urls₁ ++ url :: urls₂)
        = processBatch (fun u => download_file (some cache) net u true) process urls₁
          ++ processBatch (fun u => download_file (some cache) net u true) process urls₂ := by
  have hdl : download_file (some cache) net url true = .error .fileNotFound := by
    simp only [download_file, hmiss, if_true]
  refine ⟨hdl, ?_⟩
  have hskip : processRun (fun u => download_file (some cache) net u true) process url
      = none := by
    simp only [processRun, hdl]
  unfold processBatch
  rw [List.filterMap_append, List.filterMap_cons, hskip]

/-- Witness for C9 with an empty cache and a three-URL batch. -/
theorem download_cache_only_spec_witness :
    download_file (some (fun _ => none)) (fun _ => Except.error []) (sc "u") true
        = Except.error DlError.fileNotFound
    ∧ processBatch
          (fun u => download_file (some (fun _ => none)) (fun _ => Except.error []) u true)
          (fun s => s) ([sc "a"] ++ sc "u" :: [sc "b"])
        = processBatch
            (fun u => download_file (some (fun _ => none)) (fun _ => Except.error []) u true)
            (fun s => s) [sc "a"]
          ++ processBatch
              (fun u => download_file (some (fun _ => none)) (fun _ => Except.error []) u true)
              (fun s => s) [sc "b"] :=
  download_cache_only_spec (fun _ => none) (fun _ => Except.error []) (sc "u") rfl
    (fun s => s) [sc "a"] [sc "b"]


end DwcPoc
